import Mathlib

/-!
Shallow embedding of the BANG unpack-parser core (src/bang/UnpackParser.py)
and of the YARA rule emitters (maintenance/yara/yara_from_bang.py,
maintenance/yara/yara_from_source.py), together with theorems settling the
frozen claims about them.

Bytes are modelled as `Nat` (values 0..255), byte streams as `List Nat`,
file positions as `Int` (Python file positions are integers), and Python
exceptions as an explicit error type.
-/

namespace Bang

/-- Python `whence` argument of `seek`: `os.SEEK_SET`, `os.SEEK_CUR`,
`os.SEEK_END`. -/
inductive Whence
  | set
  | cur
  | end_
deriving DecidableEq, Repr

/-- The underlying opened file of a MetaDirectory: its immutable bytes and
the current file position. -/
structure UFile where
  data : List Nat
  pos : Int
deriving DecidableEq, Repr

/-- Plain `file.seek(offset, whence)` on the underlying file. -/
def UFile.seek (u : UFile) (offset : Int) (whence : Whence) : UFile :=
  match whence with
  | .set => { u with pos := offset }
  | .cur => { u with pos := u.pos + offset }
  | .end_ => { u with pos := (u.data.length : Int) + offset }

/-- Plain `file.tell()` on the underlying file. -/
def UFile.tell (u : UFile) : Int := u.pos

/-- Reading a single byte at the current position (`file.read(1)` returns
one byte, or `b''` at or past end of file, modelled as `none`). -/
def UFile.read1 (u : UFile) : Option Nat × UFile :=
  if h : 0 ≤ u.pos ∧ u.pos < (u.data.length : Int) then
    (some (u.data.get ⟨u.pos.toNat, by
      rcases h with ⟨h0, h1⟩
      exact Int.toNat_lt' (by omega) |>.mpr (by omega)⟩),
     { u with pos := u.pos + 1 })
  else
    (none, u)

/-- Class `OffsetInputFile` from src/bang/UnpackParser.py: a view of the
MetaDirectory's open file rebased at `offset`.  `usize` records
`from_meta_directory.size` (the `_size` attribute set in `__init__`). -/
structure OffsetInputFile where
  infile : UFile
  offset : Int
  usize : Int
deriving DecidableEq, Repr

/-- Constructor `OffsetInputFile.__init__(from_meta_directory, offset)`:
`self.infile` is the meta directory's open file, `self._size` its size. -/
def OffsetInputFile.make (u : UFile) (offset : Int) : OffsetInputFile :=
  { infile := u, offset := offset, usize := (u.data.length : Int) }

/-- Method `OffsetInputFile.seek`: with `SEEK_SET` the underlying file is sought
to `offset + self.offset`; other whences are forwarded unchanged. -/
def OffsetInputFile.seek (f : OffsetInputFile) (offset : Int) (whence : Whence) :
    OffsetInputFile :=
  match whence with
  | .set => { f with infile := f.infile.seek (offset + f.offset) .set }
  | w => { f with infile := f.infile.seek offset w }

/-- Method `OffsetInputFile.tell`: the underlying position minus the base offset. -/
def OffsetInputFile.tell (f : OffsetInputFile) : Int :=
  f.infile.tell - f.offset

/-- Property `OffsetInputFile.size`: `self._size - self.offset`. -/
def OffsetInputFile.size (f : OffsetInputFile) : Int :=
  f.usize - f.offset

/-- Method `read(1)` forwarded to the underlying file (via `__getattr__`). -/
def OffsetInputFile.read1 (f : OffsetInputFile) : Option Nat × OffsetInputFile :=
  let (c, u) := f.infile.read1
  (c, { f with infile := u })

/-- Python exceptions as seen by the dispatcher: `UnpackParserException`
(the non-fatal parser reject) versus any other exception. -/
inductive PyExc where
  | upe : String → PyExc
  | other : String → PyExc
deriving DecidableEq, Repr

/-- Function `check_condition(condition, message)` from src/bang/UnpackParser.py:
raises an `UnpackParserException` with `message` when `condition` fails. -/
def check_condition (condition : Bool) (message : String) : Except PyExc Unit :=
  if condition then .ok () else .error (.upe message)

/-- The behaviour of one parser instance relevant to `parse_from_offset`:
its `parse` method (which may mutate the offset stream and raise) and its
`calculate_unpacked_size` method (which computes `self.unpacked_size`). -/
structure AbstractParser where
  parse : OffsetInputFile → Except PyExc OffsetInputFile
  calculate_unpacked_size : OffsetInputFile → Int

/-- Method `UnpackParser.parse_from_offset`: `self.infile.seek(0)`, `self.parse()`,
`self.calculate_unpacked_size()`, then
`check_condition(self.unpacked_size > 0, 'Parser resulted in zero length file')`.
Returns the post-parse stream together with `unpacked_size`. -/
def parse_from_offset (p : AbstractParser) (f : OffsetInputFile) :
    Except PyExc (OffsetInputFile × Int) :=
  match p.parse (f.seek 0 .set) with
  | .error e => .error e
  | .ok f1 =>
      let sz := p.calculate_unpacked_size f1
      match check_condition (decide (0 < sz)) "Parser resulted in zero length file" with
      | .error e => .error e
      | .ok _ => .ok (f1, sz)

/-- Python values stored in a MetaDirectory info record. -/
inductive PyVal where
  | vstr : String → PyVal
  | vint : Int → PyVal
  | vlist : List PyVal → PyVal
  | vdict : List (String × PyVal) → PyVal

/-- Association-list lookup, the semantics of Python `d[k]` / `k in d`. -/
def dictGet? : List (String × PyVal) → String → Option PyVal
  | [], _ => none
  | (k', v) :: rest, k => if k' = k then some v else dictGet? rest k

/-- Python `d[k] = v`: overwrite the binding if the key is present,
otherwise append it. -/
def dictSet : List (String × PyVal) → String → PyVal → List (String × PyVal)
  | [], k, v => [(k, v)]
  | (k', v') :: rest, k, v =>
      if k' = k then (k', v) :: rest else (k', v') :: dictSet rest k v

/-- Python `d.setdefault(k, dflt)`: returns the (possibly extended) dict
and the value now bound at `k`. -/
def dictSetdefault (d : List (String × PyVal)) (k : String) (dflt : PyVal) :
    List (String × PyVal) × PyVal :=
  match dictGet? d k with
  | some v => (d, v)
  | none => (dictSet d k dflt, dflt)

/-- Python `d.update(m)`: bind every key of `m` in `d`, in order. -/
def dictUpdate (d m : List (String × PyVal)) : List (String × PyVal) :=
  m.foldl (fun acc kv => dictSet acc kv.1 kv.2) d

/-- Method `UnpackParser.record_parser`:
`to_meta_directory.info['unpack_parser'] = self.pretty_name`. -/
def record_parser_name (pretty_name : String) (info : List (String × PyVal)) :
    List (String × PyVal) :=
  dictSet info "unpack_parser" (.vstr pretty_name)

/-- Method `UnpackParser.add_labels`:
`to_meta_directory.info.setdefault('labels',[]).extend(self.labels)`.
`none` models the `AttributeError` Python raises when an existing
`labels` value is not a list. -/
def add_labels (parser_labels : List PyVal) (info : List (String × PyVal)) :
    Option (List (String × PyVal)) :=
  match dictSetdefault info "labels" (.vlist []) with
  | (d, .vlist l) => some (dictSet d "labels" (.vlist (l ++ parser_labels)))
  | (_, _) => none

/-- Method `UnpackParser.update_metadata`:
`to_meta_directory.info.setdefault('metadata',{}).update(self.metadata)`.
`none` models the `AttributeError` when an existing `metadata` value is
not a dict. -/
def update_metadata (parser_metadata : List (String × PyVal))
    (info : List (String × PyVal)) : Option (List (String × PyVal)) :=
  match dictSetdefault info "metadata" (.vdict []) with
  | (d, .vdict mm) => some (dictSet d "metadata" (.vdict (dictUpdate mm parser_metadata)))
  | (_, _) => none

/-- Method `UnpackParser.write_info`: `record_parser`, then `add_labels`, then
`update_metadata`, in that order. -/
def write_info (pretty_name : String) (parser_labels : List PyVal)
    (parser_metadata : List (String × PyVal)) (info : List (String × PyVal)) :
    Option (List (String × PyVal)) :=
  (add_labels parser_labels (record_parser_name pretty_name info)).bind
    (update_metadata parser_metadata)

/-- The `while c == padding_char` loop of `PaddingParser.parse`.  The
caller guarantees that the byte just read equals `pc`, so the loop body
runs at least once: it reads the next byte (`none` at end of stream),
increments `size`, and re-tests.  Returns the final `size` and the byte
that ended the loop. -/
def paddingWhile (pc : Nat) : List Nat → Nat → Nat × Option Nat
  | [], size => (size + 1, none)
  | x :: xs, size => if x = pc then paddingWhile pc xs (size + 1) else (size + 1, some x)

/-- Method `PaddingParser.parse` on the byte stream handed to the parser.  Returns
`(unpacked_size, is_padding)`.  Note that line 217 of the source assigns
the end-of-stream test `c == b''` to a fresh local variable `ispadding`
(not to `self.is_padding`), so the classification stored in
`self.is_padding` is the membership test on the first byte alone; the
embedding records that dead store in `_ispadding`. -/
def paddingParse (stream : List Nat) : Nat × Bool :=
  match stream with
  | [] => (0, false)
  | c :: rest =>
      if c ∈ [0x00, 0xff] then
        let r := paddingWhile c rest 0
        let _ispadding := r.2.isNone
        (r.1, true)
      else (0, false)

/-- Method `PaddingParser.write_info`: when `is_padding` holds, append the label
`'padding'` via `info.setdefault('labels', []).append('padding')`. -/
def paddingWriteInfo (is_padding : Bool) (info : List (String × PyVal)) :
    Option (List (String × PyVal)) :=
  if is_padding then
    match dictSetdefault info "labels" (.vlist []) with
    | (d, .vlist l) => some (dictSet d "labels" (.vlist (l ++ [.vstr "padding"])))
    | (_, _) => none
  else some info

/-- Observable events of the generator bodies of `ExtractedParser.unpack`
and `SynthesizingParser.unpack`: the `write_ahead` call on the
MetaDirectory and the `yield` of a MetaDirectory. -/
inductive UnpackEvent (M : Type) where
  | writeAhead : M → UnpackEvent M
  | yieldMD : M → UnpackEvent M
deriving DecidableEq, Repr

/-- Whether the event is a `yield`. -/
def UnpackEvent.isYield {M : Type} : UnpackEvent M → Bool
  | .yieldMD _ => true
  | .writeAhead _ => false

/-- The MetaDirectories yielded by a trace, in order. -/
def yieldedMDs {M : Type} (tr : List (UnpackEvent M)) : List M :=
  tr.filterMap (fun e => match e with | .yieldMD m => some m | .writeAhead _ => none)

/-- The prefix of a trace that precedes its first `yield`. -/
def eventsBeforeFirstYield {M : Type} (tr : List (UnpackEvent M)) :
    List (UnpackEvent M) :=
  tr.takeWhile (fun e => !e.isYield)

/-- Method `ExtractedParser.unpack`: `to_meta_directory.write_ahead()` then
`yield to_meta_directory`. -/
def ExtractedParser.unpack {M : Type} (to_meta_directory : M) : List (UnpackEvent M) :=
  [.writeAhead to_meta_directory, .yieldMD to_meta_directory]

/-- Attribute `ExtractedParser.labels = []`. -/
def ExtractedParser.labels : List PyVal := []

/-- Attribute `ExtractedParser.metadata` (the empty dict). -/
def ExtractedParser.metadata : List (String × PyVal) := []

/-- Method `SynthesizingParser.unpack`: `to_meta_directory.write_ahead()` then
`yield to_meta_directory`. -/
def SynthesizingParser.unpack {M : Type} (to_meta_directory : M) : List (UnpackEvent M) :=
  [.writeAhead to_meta_directory, .yieldMD to_meta_directory]

/-- Attribute `SynthesizingParser.labels = ['synthesized']`. -/
def SynthesizingParser.labels : List PyVal := [.vstr "synthesized"]

/-- Attribute `SynthesizingParser.metadata` (the empty dict). -/
def SynthesizingParser.metadata : List (String × PyVal) := []

end Bang

namespace Elf

/-- ELF program header types distinguished by the security scan in
`ElfUnpackParser.extract_metadata_and_labels`. -/
inductive PhType where
  | gnu_relro
  | gnu_stack
  | pax_flags
  | load
  | otherPh
deriving DecidableEq, Repr

/-- One program header: its type and the `execute` bit of `flags_obj`. -/
structure ProgramHeader where
  phtype : PhType
  flags_execute : Bool
deriving DecidableEq, Repr

/-- Dynamic-array tags distinguished by the `.dynamic` entry loop. -/
inductive DynTag where
  | needed
  | rpath
  | runpath
  | soname
  | flags_1
  | flags
  | otherTag
deriving DecidableEq, Repr

/-- Bits of `entry.flag_1_values` read by the scan. -/
structure Flag1Values where
  pie : Bool
  now : Bool
deriving DecidableEq, Repr

/-- Bits of `entry.flag_values` read by the scan. -/
structure FlagValues where
  bind_now : Bool
deriving DecidableEq, Repr

/-- One entry of a `.dynamic` section body. -/
structure DynEntry where
  tag_enum : DynTag
  value_str : String
  flag_1_values : Flag1Values
  flag_values : FlagValues
deriving DecidableEq, Repr

/-- Section header types distinguished by the section loop. -/
inductive ShType where
  | dynamic
  | symtab
  | dynsym
  | nobits
  | otherSh
deriving DecidableEq, Repr

/-- One section header: type, name, and (for dynamic sections) the entries
of its body. -/
structure SectionHeader where
  shtype : ShType
  name : String
  entries : List DynEntry
deriving DecidableEq, Repr

/-- The parsed ELF fields read by the security scan. -/
structure ElfData where
  program_headers : List ProgramHeader
  section_headers : List SectionHeader
deriving DecidableEq, Repr

/-- The body of the program-header loop restricted to its effect on
`metadata['security']` and `seen_relro`: `gnu_relro` appends `'relro'` and
sets `seen_relro`, a non-executable `gnu_stack` appends `'nx'`, and
`pax_flags` appends `'pax'`. -/
def phStep (acc : List String × Bool) (header : ProgramHeader) : List String × Bool :=
  match header.phtype with
  | .gnu_relro => (acc.1 ++ ["relro"], true)
  | .gnu_stack => (if !header.flags_execute then acc.1 ++ ["nx"] else acc.1, acc.2)
  | .pax_flags => (acc.1 ++ ["pax"], acc.2)
  | _ => acc

/-- The complete program-header loop, started from the empty security list
and `seen_relro = False`. -/
def phLoop (hs : List ProgramHeader) : List String × Bool :=
  hs.foldl phStep ([], false)

/-- Security strings contributed by one `.dynamic` entry, given the final
`seen_relro` value: `flags_1` contributes `'pie'` when `pie` is set and a
relro verdict when `now` is set; `flags` contributes a relro verdict when
`bind_now` is set. -/
def dynEntrySecurity (seen_relro : Bool) (entry : DynEntry) : List String :=
  match entry.tag_enum with
  | .flags_1 =>
      (if entry.flag_1_values.pie then ["pie"] else []) ++
      (if entry.flag_1_values.now then
        (if seen_relro then ["full relro"] else ["partial relro"])
      else [])
  | .flags =>
      (if entry.flag_values.bind_now then
        (if seen_relro then ["full relro"] else ["partial relro"])
      else [])
  | _ => []

/-- Security strings contributed by one section header: only a section of
type `dynamic` named `.dynamic` contributes, entry by entry in order. -/
def dynSectionSecurity (seen_relro : Bool) (header : SectionHeader) : List String :=
  if header.shtype = .dynamic ∧ header.name = ".dynamic" then
    header.entries.foldl (fun acc e => acc ++ dynEntrySecurity seen_relro e) []
  else []

/-- The section-header loop restricted to its effect on
`metadata['security']`. -/
def shLoop (seen_relro : Bool) (ss : List SectionHeader) : List String :=
  ss.foldl (fun acc s => acc ++ dynSectionSecurity seen_relro s) []

/-- The list `metadata['security']` as computed by
`ElfUnpackParser.extract_metadata_and_labels`: the program-header loop runs
first (also fixing `seen_relro`), then the section-header loop appends its
contributions. -/
def elfSecurity (e : ElfData) : List String :=
  let ph := phLoop e.program_headers
  ph.1 ++ shLoop ph.2 e.section_headers

end Elf

namespace Pystr

/-- Whether `pat` is an initial segment of `s` (character lists). -/
def listStartsWith : List Char → List Char → Bool
  | [], _ => true
  | _ :: _, [] => false
  | p :: ps, c :: cs => p == c && listStartsWith ps cs

/-- Python `pat in s` on character lists: some position starts with `pat`. -/
def containsSub (pat : List Char) : List Char → Bool
  | [] => listStartsWith pat []
  | c :: cs => listStartsWith pat (c :: cs) || containsSub pat cs

/-- Python `pat in s` on strings. -/
def strContains (s pat : String) : Bool := containsSub pat.data s.data

/-- Remove leading whitespace characters. -/
def dropLeadingWs : List Char → List Char
  | [] => []
  | c :: cs => if c.isWhitespace then dropLeadingWs cs else c :: cs

/-- Python `s.strip()`: remove leading and trailing whitespace. -/
def pyStrip (s : List Char) : List Char :=
  ((dropLeadingWs ((dropLeadingWs s).reverse)).reverse)

/-- Python `s.strip()` on strings. -/
def pyStripStr (s : String) : String := ⟨pyStrip s.data⟩

/-- Python `s.lower()` on strings (ASCII as used for file suffixes). -/
def pyLower (s : String) : String := ⟨s.data.map Char.toLower⟩

/-- The greatest position at which `pat` occurs in `s`, if any. -/
def lastMatchIdx (pat s : List Char) : Option Nat :=
  ((List.range (s.length + 1)).filter (fun i => listStartsWith pat (s.drop i))).getLast?

/-- Python `s.rsplit(pat, 1)[0]`: everything before the last occurrence of
`pat`, or all of `s` when `pat` does not occur. -/
def rsplitBefore (pat s : List Char) : List Char :=
  match lastMatchIdx pat s with
  | some i => s.take i
  | none => s

end Pystr

namespace Script

open Pystr

/-- Result record of `unpack_script`: the `status` flag, the returned
labels, and the returned length (0 on failure, where the source returns an
error record instead). -/
structure UnpackResult where
  status : Bool
  labels : List String
  length : Nat
deriving DecidableEq, Repr

/-- Function `unpack_script` from src/bangfilescans.py on the data it inspects: the
file-name suffix, the first line of the file, and the file size.  The
shebang test is `'#!' in checkline`; the suffix (lower-cased) selects the
interpreter test applied to the stripped first line; any failing branch
falls through to the failure return. -/
def unpack_script (suffix : String) (first_line : String) (filesize : Nat) :
    UnpackResult :=
  if strContains first_line "#!" then
    if pyLower suffix = ".py" then
      if strContains (pyStripStr first_line) "python" then
        ⟨true, ["script", "python"], filesize⟩
      else ⟨false, [], 0⟩
    else if pyLower suffix = ".pl" then
      if strContains (pyStripStr first_line) "perl" then
        ⟨true, ["script", "perl"], filesize⟩
      else ⟨false, [], 0⟩
    else if pyLower suffix = ".sh" then
      if strContains (pyStripStr first_line) "/bash" then
        ⟨true, ["script", "bash"], filesize⟩
      else if strContains (pyStripStr first_line) "/sh" then
        ⟨true, ["script", "shell"], filesize⟩
      else ⟨false, [], 0⟩
    else ⟨false, [], 0⟩
  else ⟨false, [], 0⟩

end Script

namespace Yara

open Pystr

/-- One ELF symbol record as stored in `metadata.symbols`. -/
structure ElfSymbol where
  name : String
  typ : String
  binding : String
  section_index : Nat
deriving DecidableEq, Repr

/-- The symbol-filter settings of `yara_env` read by the symbol loop of
`process_directory` in maintenance/yara/yara_from_bang.py.  `lq_functions`
and `lq_variables` are `yara_env['lq_identifiers']['elf']`. -/
structure SymbolEnv where
  ignore_weak_symbols : Bool
  identifier_cutoff : Nat
  lq_functions : List String
  lq_variables : List String
deriving DecidableEq, Repr

/-- Version-suffix stripping, lines 239-244 of yara_from_bang.py:
`rsplit('@@', 1)[0]` when `'@@' in name`, else `rsplit('@', 1)[0]` when
`'@' in name`, else the name unchanged. -/
def strip_version (name : String) : String :=
  if containsSub "@@".data name.data then ⟨rsplitBefore "@@".data name.data⟩
  else if containsSub "@".data name.data then ⟨rsplitBefore "@".data name.data⟩
  else name

/-- Python `set.add` modelled on duplicate-free lists. -/
def setAdd (l : List String) (x : String) : List String :=
  if x ∈ l then l else l ++ [x]

/-- The body of the symbol loop of `process_directory` (lines 231-252):
drop symbols with `section_index == 0`, optionally drop weak bindings,
drop names shorter than `identifier_cutoff`, strip the version suffix, and
add the name to the functions or variables group unless denylisted.
The accumulator is `(functions, variables)`. -/
def processSymbol (env : SymbolEnv) (acc : List String × List String)
    (s : ElfSymbol) : List String × List String :=
  if s.section_index = 0 then acc
  else if env.ignore_weak_symbols && (s.binding == "weak") then acc
  else if s.name.length < env.identifier_cutoff then acc
  else
    let identifier_name := strip_version s.name
    if s.typ == "func" then
      if identifier_name ∈ env.lq_functions then acc
      else (setAdd acc.1 identifier_name, acc.2)
    else if s.typ == "object" then
      if identifier_name ∈ env.lq_variables then acc
      else (acc.1, setAdd acc.2 identifier_name)
    else acc

/-- The whole symbol loop, starting from empty `functions`/`variables`. -/
def processSymbols (env : SymbolEnv) (symbols : List ElfSymbol) :
    List String × List String :=
  symbols.foldl (processSymbol env) ([], [])

/-- The `heuristics` sub-mapping of the configuration. -/
structure Heuristics where
  strings_minimum_present : Nat
  strings_percentage : Nat
  strings_matched : Nat
  functions_minimum_present : Nat
  functions_percentage : Nat
  functions_matched : Nat
  variables_minimum_present : Nat
  variables_percentage : Nat
  variables_matched : Nat
deriving DecidableEq, Repr

/-- One token of an emitted `condition:` block: a `<n> of ($<group>*)`
requirement, an `any of ($<group>*)` requirement, or the connective
`and`. -/
inductive CondTerm where
  | ofCount : Nat → String → CondTerm
  | anyOf : String → CondTerm
  | andConn : CondTerm
deriving DecidableEq, Repr

/-- Per-group condition of yara_from_bang.py (e.g. lines 119-123 for
functions): when `minimum_present <= count`, require
`max(count // percentage, matched)` matches (Python `//` on non-negative
ints is `Nat` division), else `any of`. -/
def bangCondGroup (count minp pct matched : Nat) (group : String) : CondTerm :=
  if minp ≤ count then .ofCount (max (count / pct) matched) group else .anyOf group

/-- Per-group condition of yara_from_source.py (e.g. lines 123-127 for
functions): when `minimum_present <= count`, require
`int(max(count / 100 * percentage, matched))` matches, else `any of`.  The
Python float expression is modelled by exact rational arithmetic; `int()`
truncation of the non-negative value is the floor. -/
def sourceCondGroup (count minp pct matched : Nat) (group : String) : CondTerm :=
  if minp ≤ count then
    .ofCount (Int.toNat ⌊max ((count : ℚ) / 100 * (pct : ℚ)) ((matched : ℚ))⌋) group
  else .anyOf group

/-- The `condition:` block written by `generate_yara` of yara_from_bang.py
(lines 107-134) for group sizes `ns`, `nf`, `nv`: each non-empty group
contributes its condition, and a connective `and` separates a group from
any later non-empty group. -/
def bangConditionBlock (ns nf nv : Nat) (h : Heuristics) : List CondTerm :=
  (if ns ≠ 0 then
    [bangCondGroup ns h.strings_minimum_present h.strings_percentage
      h.strings_matched "string"]
    ++ (if ¬(nf = 0 ∧ nv = 0) then [.andConn] else [])
  else [])
  ++ (if nf ≠ 0 then
    [bangCondGroup nf h.functions_minimum_present h.functions_percentage
      h.functions_matched "function"]
    ++ (if nv ≠ 0 then [.andConn] else [])
  else [])
  ++ (if nv ≠ 0 then
    [bangCondGroup nv h.variables_minimum_present h.variables_percentage
      h.variables_matched "variable"]
  else [])

/-- The `condition:` block written by `generate_yara` of
yara_from_source.py (lines 111-138).  There the groups are lists, so the
guards `not (functions == set() and variables == set())` (line 118) and
`variables != set()` (line 128) are always true and the connective `and`
is written unconditionally after a non-empty strings or functions
group. -/
def sourceConditionBlock (ns nf nv : Nat) (h : Heuristics) : List CondTerm :=
  (if ns ≠ 0 then
    [sourceCondGroup ns h.strings_minimum_present h.strings_percentage
      h.strings_matched "string", .andConn]
  else [])
  ++ (if nf ≠ 0 then
    [sourceCondGroup nf h.functions_minimum_present h.functions_percentage
      h.functions_matched "function", .andConn]
  else [])
  ++ (if nv ≠ 0 then
    [sourceCondGroup nv h.variables_minimum_present h.variables_percentage
      h.variables_matched "variable"]
  else [])

/-- The metadata fields of one binary that `generate_yara` of
yara_from_bang.py uses for the rule file name (line 59). -/
structure BangRuleMetadata where
  name : String
  sha256 : String
  package : String
deriving DecidableEq, Repr

/-- The metadata fields that `generate_yara` of yara_from_source.py uses
for the rule file name (line 62). -/
structure SourceRuleMetadata where
  archive : String
  language : String
deriving DecidableEq, Repr

/-- The observable output of `generate_yara`: the path of the written rule
file, its base name (the function's return value), and the condition
block. -/
structure EmittedRule where
  path : String
  file_name : String
  cond : List CondTerm
deriving DecidableEq, Repr

/-- Function `generate_yara` of yara_from_bang.py:
`yara_file = yara_directory / ("%s-%s.yara" % (metadata['package'], metadata['name']))`,
the condition block as above, and `yara_file.name` returned. -/
def bang_generate_yara (yara_directory : String) (metadata : BangRuleMetadata)
    (ns nf nv : Nat) (h : Heuristics) : EmittedRule :=
  let file_name := metadata.package ++ "-" ++ metadata.name ++ ".yara"
  { path := yara_directory ++ "/" ++ file_name
    file_name := file_name
    cond := bangConditionBlock ns nf nv h }

/-- Function `generate_yara` of yara_from_source.py:
`yara_file = yara_directory / ("%s-%s.yara" % (metadata['archive'], metadata['language']))`,
the condition block as above, and `yara_file.name` returned. -/
def source_generate_yara (yara_directory : String) (metadata : SourceRuleMetadata)
    (ns nf nv : Nat) (h : Heuristics) : EmittedRule :=
  let file_name := metadata.archive ++ "-" ++ metadata.language ++ ".yara"
  { path := yara_directory ++ "/" ++ file_name
    file_name := file_name
    cond := sourceConditionBlock ns nf nv h }

end Yara

namespace Claimed

/-- Per-group condition as the claim words it: the threshold applies when
the count strictly exceeds `minimum_present`, and both emitters are said
to use `max(count / percentage_divisor, matched_floor)`. -/
def claimCondGroup (count minp pct matched : Nat) (group : String) :
    Yara.CondTerm :=
  if minp < count then .ofCount (max (count / pct) matched) group
  else .anyOf group

/-- Rule file name as the claim words it: `<name>-<sha256>.<ext>` built
from the scanned binary's basename and its content hash. -/
def claimRuleFileName (name sha256 : String) : String :=
  name ++ "-" ++ sha256 ++ ".yara"

/-- The claim's padding classification: the stream is a non-empty run of
one repeated byte value from 0x00/0xFF extending to end-of-stream. -/
def isPaddingRunToEOS (stream : List Nat) : Prop :=
  stream ≠ [] ∧ ∃ p ∈ [0x00, 0xff], stream = List.replicate stream.length p

instance (stream : List Nat) : Decidable (isPaddingRunToEOS stream) := by
  unfold isPaddingRunToEOS
  infer_instance

end Claimed

/-- A heuristics record used to instantiate theorems at concrete inputs:
every group has `minimum_present = 50`, `percentage = 20`, `matched = 1`. -/
def exampleHeuristics : Yara.Heuristics :=
  ⟨50, 20, 1, 50, 20, 1, 50, 20, 1⟩

/-- A parser whose `parse` succeeds without moving the stream and whose
`calculate_unpacked_size` reports 5; used to instantiate theorems. -/
def okParser : Bang.AbstractParser :=
  { parse := fun f => .ok f, calculate_unpacked_size := fun _ => 5 }

/-- A concrete offset stream over an empty file at base offset 0; used to
instantiate theorems. -/
def exampleFile : Bang.OffsetInputFile :=
  Bang.OffsetInputFile.make ⟨[], 0⟩ 0

/-- A concrete ELF model with a `PT_GNU_RELRO` program header and a
`.dynamic` section whose `flags` entry has `bind_now`; used to
instantiate theorems. -/
def exampleRelroElf : Elf.ElfData :=
  { program_headers := [⟨Elf.PhType.gnu_relro, false⟩]
    section_headers := [⟨Elf.ShType.dynamic, ".dynamic",
      [⟨Elf.DynTag.flags, "", ⟨false, false⟩, ⟨true⟩⟩]⟩] }

/-- Membership in a left fold that appends a contribution per element. -/
theorem mem_foldl_append {α β : Type} (g : β → List α) :
    ∀ (l : List β) (acc : List α) (x : α),
      x ∈ l.foldl (fun a b => a ++ g b) acc ↔ x ∈ acc ∨ ∃ b ∈ l, x ∈ g b := by
  intro l
  induction l with
  | nil => intro acc x; simp
  | cons b rest ih =>
      intro acc x
      simp only [List.foldl_cons, ih (acc ++ g b) x, List.mem_append, List.mem_cons]
      constructor
      · rintro ((h | h) | ⟨c, hc, hx⟩)
        · exact Or.inl h
        · exact Or.inr ⟨b, Or.inl rfl, h⟩
        · exact Or.inr ⟨c, Or.inr hc, hx⟩
      · rintro (h | ⟨c, (rfl | hc), hx⟩)
        · exact Or.inl (Or.inl h)
        · exact Or.inl (Or.inr hx)
        · exact Or.inr ⟨c, hc, hx⟩

/-- The final `seen_relro` of the program-header loop is true exactly when
some program header has type `gnu_relro`. -/
theorem phLoop_seen (hs : List Elf.ProgramHeader) :
    ∀ (acc : List String) (seen : Bool),
      (List.foldl Elf.phStep (acc, seen) hs).2 =
        (seen || hs.any (fun h => h.phtype == .gnu_relro)) := by
  induction hs with
  | nil => intro acc seen; simp
  | cons h rest ih =>
      intro acc seen
      simp only [List.foldl_cons, List.any_cons]
      rcases hh : h.phtype <;>
        simp [Elf.phStep, hh, ih] <;>
        cases seen <;> simp

/-- Every string accumulated by the program-header loop is either already
in the accumulator or one of `relro`, `nx`, `pax`. -/
theorem phLoop_mem (hs : List Elf.ProgramHeader) :
    ∀ (acc : List String) (seen : Bool) (x : String),
      x ∈ (List.foldl Elf.phStep (acc, seen) hs).1 →
        x ∈ acc ∨ x = "relro" ∨ x = "nx" ∨ x = "pax" := by
  induction hs with
  | nil => intro acc seen x hx; exact Or.inl hx
  | cons h rest ih =>
      intro acc seen x hx
      simp only [List.foldl_cons] at hx
      rcases hh : h.phtype <;> simp only [Elf.phStep, hh] at hx
      · rcases ih _ _ _ hx with h' | h'
        · rcases List.mem_append.mp h' with h'' | h''
          · exact Or.inl h''
          · exact Or.inr (Or.inl (List.mem_singleton.mp h''))
        · exact Or.inr h'
      · by_cases he : h.flags_execute
        · simp only [he, Bool.not_true, Bool.false_eq_true, if_false] at hx
          exact ih _ _ _ hx
        · simp only [Bool.not_eq_true] at he
          simp only [he, Bool.not_false, if_true] at hx
          rcases ih _ _ _ hx with h' | h'
          · rcases List.mem_append.mp h' with h'' | h''
            · exact Or.inl h''
            · exact Or.inr (Or.inr (Or.inl (List.mem_singleton.mp h'')))
          · exact Or.inr h'
      · rcases ih _ _ _ hx with h' | h'
        · rcases List.mem_append.mp h' with h'' | h''
          · exact Or.inl h''
          · exact Or.inr (Or.inr (Or.inr (List.mem_singleton.mp h'')))
        · exact Or.inr h'
      · exact ih _ _ _ hx
      · exact ih _ _ _ hx

/-- Membership in the section loop: exactly the contributions of the
qualifying sections. -/
theorem shLoop_mem (seen : Bool) (ss : List Elf.SectionHeader) (x : String) :
    x ∈ Elf.shLoop seen ss ↔ ∃ s ∈ ss, x ∈ Elf.dynSectionSecurity seen s := by
  unfold Elf.shLoop
  rw [mem_foldl_append (Elf.dynSectionSecurity seen) ss [] x]
  simp

/-- Membership in the contribution of one section: the section must be a
dynamic section named `.dynamic` and some entry contributes the string. -/
theorem dynSectionSecurity_mem (seen : Bool) (s : Elf.SectionHeader) (x : String) :
    x ∈ Elf.dynSectionSecurity seen s ↔
      (s.shtype = .dynamic ∧ s.name = ".dynamic" ∧
        ∃ e ∈ s.entries, x ∈ Elf.dynEntrySecurity seen e) := by
  unfold Elf.dynSectionSecurity
  by_cases hc : s.shtype = Elf.ShType.dynamic ∧ s.name = ".dynamic"
  · rw [if_pos hc, mem_foldl_append (Elf.dynEntrySecurity seen) s.entries [] x]
    simp [hc.1, hc.2]
  · rw [if_neg hc]
    simp only [List.not_mem_nil, false_iff]
    intro h
    exact hc ⟨h.1, h.2.1⟩

/-- An entry with the `flags` tag and `bind_now`, or the `flags_1` tag and
`now`, contributes the appropriate relro verdict. -/
theorem dynEntrySecurity_relro (seen : Bool) (e : Elf.DynEntry)
    (he : (e.tag_enum = .flags ∧ e.flag_values.bind_now = true) ∨
          (e.tag_enum = .flags_1 ∧ e.flag_1_values.now = true)) :
    (if seen then "full relro" else "partial relro") ∈ Elf.dynEntrySecurity seen e := by
  rcases he with ⟨ht, hb⟩ | ⟨ht, hb⟩ <;>
    cases seen <;>
    simp [Elf.dynEntrySecurity, ht, hb]

/-- With `seen_relro = false` no dynamic entry contributes `full relro`. -/
theorem dynEntrySecurity_no_full (e : Elf.DynEntry) :
    "full relro" ∉ Elf.dynEntrySecurity false e := by
  rcases ht : e.tag_enum <;>
    simp [Elf.dynEntrySecurity, ht]

/-- Looking up the key just bound by `dictSet` yields the new value. -/
theorem dictGet?_dictSet_same (d : List (String × Bang.PyVal)) (k : String)
    (v : Bang.PyVal) : Bang.dictGet? (Bang.dictSet d k v) k = some v := by
  induction d with
  | nil => simp [Bang.dictSet, Bang.dictGet?]
  | cons kv rest ih =>
      obtain ⟨k1, v1⟩ := kv
      by_cases h : k1 = k
      · simp [Bang.dictSet, Bang.dictGet?, h]
      · simp [Bang.dictSet, Bang.dictGet?, h, ih]

/-- Setting a key with `dictSet` leaves the binding of every other key unchanged. -/
theorem dictGet?_dictSet_other (d : List (String × Bang.PyVal)) (k k' : String)
    (v : Bang.PyVal) (h : k' ≠ k) :
    Bang.dictGet? (Bang.dictSet d k v) k' = Bang.dictGet? d k' := by
  induction d with
  | nil =>
      simp only [Bang.dictSet, Bang.dictGet?]
      rw [if_neg (fun he : k = k' => h he.symm)]
  | cons kv rest ih =>
      obtain ⟨k1, v1⟩ := kv
      by_cases h1 : k1 = k
      · subst h1
        simp only [Bang.dictSet, if_pos rfl, Bang.dictGet?]
        rw [if_neg (fun he : k1 = k' => h he.symm),
          if_neg (fun he : k1 = k' => h he.symm)]
      · simp only [Bang.dictSet, if_neg h1, Bang.dictGet?]
        by_cases h2 : k1 = k'
        · rw [if_pos h2, if_pos h2]
        · rw [if_neg h2, if_neg h2, ih]

/-- Updating with `dictUpdate` leaves keys outside the update unchanged. -/
theorem dictUpdate_not_mem (m : List (String × Bang.PyVal)) :
    ∀ (d : List (String × Bang.PyVal)) (k : String),
      (∀ kv ∈ m, kv.1 ≠ k) →
      Bang.dictGet? (Bang.dictUpdate d m) k = Bang.dictGet? d k := by
  induction m with
  | nil => intro d k _; simp [Bang.dictUpdate]
  | cons kv rest ih =>
      intro d k h
      obtain ⟨k1, v1⟩ := kv
      have h1 : k1 ≠ k := h (k1, v1) (List.mem_cons_self _ _)
      have hrest : ∀ kv ∈ rest, kv.1 ≠ k :=
        fun kv hkv => h kv (List.mem_cons_of_mem _ hkv)
      show Bang.dictGet? (Bang.dictUpdate (Bang.dictSet d k1 v1) rest) k = _
      rw [ih (Bang.dictSet d k1 v1) k hrest,
        dictGet?_dictSet_other d k1 k v1 (Ne.symm h1)]

/-- Updating with `dictUpdate` binds every key of a duplicate-free update to its value. -/
theorem dictUpdate_mem (m : List (String × Bang.PyVal)) :
    ∀ (d : List (String × Bang.PyVal)) (k : String) (v : Bang.PyVal),
      (m.map Prod.fst).Nodup → (k, v) ∈ m →
      Bang.dictGet? (Bang.dictUpdate d m) k = some v := by
  induction m with
  | nil => intro d k v _ hm; cases hm
  | cons kv rest ih =>
      intro d k v hnd hm
      obtain ⟨k1, v1⟩ := kv
      show Bang.dictGet? (Bang.dictUpdate (Bang.dictSet d k1 v1) rest) k = some v
      rcases List.mem_cons.mp hm with heq | hmem
      · obtain ⟨rfl, rfl⟩ := Prod.mk.injEq .. ▸ And.intro (congrArg Prod.fst heq) (congrArg Prod.snd heq)
        have hout : ∀ kv ∈ rest, kv.1 ≠ k := by
          intro kv hkv
          have : k ∉ rest.map Prod.fst := by
            have := hnd
            simp only [List.map_cons, List.nodup_cons] at this
            exact this.1
          intro hc
          exact this (hc ▸ List.mem_map_of_mem Prod.fst hkv)
        rw [dictUpdate_not_mem rest _ k hout, dictGet?_dictSet_same]
      · have hnd' : (rest.map Prod.fst).Nodup := by
          simp only [List.map_cons, List.nodup_cons] at hnd
          exact hnd.2
        exact ih _ k v hnd' hmem

/-- What `add_labels` does to the info record: the old labels are kept as
a prefix, the parser's labels are appended, and no other key changes. -/
theorem add_labels_spec (pl : List Bang.PyVal) (info : List (String × Bang.PyVal))
    (old : List Bang.PyVal)
    (hl : Bang.dictGet? info "labels" = some (.vlist old) ∨
          (Bang.dictGet? info "labels" = none ∧ old = [])) :
    ∃ info2, Bang.add_labels pl info = some info2 ∧
      Bang.dictGet? info2 "labels" = some (.vlist (old ++ pl)) ∧
      ∀ k, k ≠ "labels" → Bang.dictGet? info2 k = Bang.dictGet? info k := by
  rcases hl with hl | ⟨hl, rfl⟩
  · refine ⟨Bang.dictSet info "labels" (.vlist (old ++ pl)), ?_, ?_, ?_⟩
    · simp [Bang.add_labels, Bang.dictSetdefault, hl]
    · exact dictGet?_dictSet_same ..
    · intro k hk; exact dictGet?_dictSet_other _ _ _ _ hk
  · refine ⟨Bang.dictSet (Bang.dictSet info "labels" (.vlist [])) "labels"
        (.vlist ([] ++ pl)), ?_, ?_, ?_⟩
    · simp [Bang.add_labels, Bang.dictSetdefault, hl, dictGet?_dictSet_same]
    · exact dictGet?_dictSet_same ..
    · intro k hk
      rw [dictGet?_dictSet_other _ _ _ _ hk, dictGet?_dictSet_other _ _ _ _ hk]

/-- What `update_metadata` does to the info record: the nested metadata
dict becomes the old one updated with the parser's entries, and no other
key changes. -/
theorem update_metadata_spec (pm : List (String × Bang.PyVal))
    (info : List (String × Bang.PyVal)) (old : List (String × Bang.PyVal))
    (hm : Bang.dictGet? info "metadata" = some (.vdict old) ∨
          (Bang.dictGet? info "metadata" = none ∧ old = [])) :
    ∃ info2, Bang.update_metadata pm info = some info2 ∧
      Bang.dictGet? info2 "metadata" = some (.vdict (Bang.dictUpdate old pm)) ∧
      ∀ k, k ≠ "metadata" → Bang.dictGet? info2 k = Bang.dictGet? info k := by
  rcases hm with hm | ⟨hm, rfl⟩
  · refine ⟨Bang.dictSet info "metadata" (.vdict (Bang.dictUpdate old pm)), ?_, ?_, ?_⟩
    · simp [Bang.update_metadata, Bang.dictSetdefault, hm]
    · exact dictGet?_dictSet_same ..
    · intro k hk; exact dictGet?_dictSet_other _ _ _ _ hk
  · refine ⟨Bang.dictSet (Bang.dictSet info "metadata" (.vdict [])) "metadata"
        (.vdict (Bang.dictUpdate [] pm)), ?_, ?_, ?_⟩
    · simp [Bang.update_metadata, Bang.dictSetdefault, hm, dictGet?_dictSet_same]
    · exact dictGet?_dictSet_same ..
    · intro k hk
      rw [dictGet?_dictSet_other _ _ _ _ hk, dictGet?_dictSet_other _ _ _ _ hk]

/-- A prefix test survives appending to the scanned list. -/
theorem listStartsWith_append (pat u t : List Char)
    (h : Pystr.listStartsWith pat u = true) :
    Pystr.listStartsWith pat (u ++ t) = true := by
  induction pat generalizing u with
  | nil => simp [Pystr.listStartsWith]
  | cons p ps ih =>
      cases u with
      | nil => simp [Pystr.listStartsWith] at h
      | cons c cs =>
          simp only [Pystr.listStartsWith, Bool.and_eq_true] at h
          simp only [List.cons_append, Pystr.listStartsWith, Bool.and_eq_true]
          exact ⟨h.1, ih cs h.2⟩

/-- The empty pattern occurs in every list. -/
theorem containsSub_nil_pat (t : List Char) :
    Pystr.containsSub [] t = true := by
  cases t <;> simp [Pystr.containsSub, Pystr.listStartsWith]

/-- A substring occurrence survives appending to the scanned list. -/
theorem containsSub_append_left (pat xs t : List Char)
    (h : Pystr.containsSub pat xs = true) :
    Pystr.containsSub pat (xs ++ t) = true := by
  induction xs with
  | nil =>
      cases pat with
      | nil => exact containsSub_nil_pat t
      | cons p ps => simp [Pystr.containsSub, Pystr.listStartsWith] at h
  | cons c cs ih =>
      simp only [Pystr.containsSub, Bool.or_eq_true] at h
      simp only [List.cons_append, Pystr.containsSub, Bool.or_eq_true]
      rcases h with h | h
      · exact Or.inl (listStartsWith_append pat (c :: cs) t h)
      · exact Or.inr (ih h)

/-- Function `dropLeadingWs` is the identity on a list with a non-whitespace head. -/
theorem dropLeadingWs_cons_nonws (c : Char) (cs : List Char)
    (hc : c.isWhitespace = false) :
    Pystr.dropLeadingWs (c :: cs) = c :: cs := by
  simp [Pystr.dropLeadingWs, hc]

/-- Dropping leading whitespace stops at a fixed-point tail. -/
theorem dropLeadingWs_append (p : List Char) (hp : Pystr.dropLeadingWs p = p) :
    ∀ xs, Pystr.dropLeadingWs (xs ++ p) = Pystr.dropLeadingWs xs ++ p := by
  intro xs
  induction xs with
  | nil => simpa [Pystr.dropLeadingWs] using hp
  | cons c cs ih =>
      by_cases hc : c.isWhitespace
      · simp [Pystr.dropLeadingWs, hc, ih]
      · simp [Pystr.dropLeadingWs, hc]

/-- Stripping a first line that starts with the python shebang keeps the
shebang as a prefix. -/
theorem pyStrip_shebang (rest : List Char) :
    Pystr.pyStrip ("#!/usr/bin/env python".data ++ rest) =
      "#!/usr/bin/env python".data ++ (Pystr.dropLeadingWs rest.reverse).reverse := by
  have hpat : "#!/usr/bin/env python".data = '#' :: "!/usr/bin/env python".data := rfl
  unfold Pystr.pyStrip
  rw [hpat, List.cons_append, dropLeadingWs_cons_nonws _ _ (by decide),
    ← List.cons_append, ← hpat, List.reverse_append,
    dropLeadingWs_append _ (by decide), List.reverse_append, List.reverse_reverse]

/-- C1 (code bug): on the stream `0x00 0x41`, which is not a padding run
extending to end-of-stream, `PaddingParser.parse` still reports
`is_padding = True` (the end-of-stream result is assigned to the dead
local `ispadding` on line 217 instead of `self.is_padding`), and
`write_info` therefore labels the file `padding`; on a genuine padding run
the parser behaves as claimed, with `unpacked_size` the run length. -/
theorem paddingParser_eos_check_dead :
    Bang.paddingParse [0x00, 0x41] = (1, true) ∧
    ¬ Claimed.isPaddingRunToEOS [0x00, 0x41] ∧
    Bang.paddingWriteInfo (Bang.paddingParse [0x00, 0x41]).2 [] =
      some [("labels", Bang.PyVal.vlist [Bang.PyVal.vstr "padding"])] ∧
    Bang.paddingParse [0x00, 0x00] = (2, true) ∧
    Claimed.isPaddingRunToEOS [0x00, 0x00] :=
  ⟨by decide, by decide, rfl, by decide, by decide⟩

/-- C3 (confirmed): an `OffsetInputFile` over underlying file `u` with base
offset `b` translates `seek(p, SEEK_SET)` to underlying position `b + p`,
mutates no underlying bytes under any seek or read, reports
`tell() = underlying position - b` and `size = S - b`, and after
`seek(p, SEEK_SET)` reports `tell() = p`. -/
theorem offsetInputFile_translation :
    ∀ (u : Bang.UFile) (b p : Int),
      ((Bang.OffsetInputFile.make u b).seek p .set).infile.pos = b + p ∧
      (∀ (w : Bang.Whence) (q : Int),
        ((Bang.OffsetInputFile.make u b).seek q w).infile.data = u.data) ∧
      ((Bang.OffsetInputFile.make u b).read1).2.infile.data = u.data ∧
      (Bang.OffsetInputFile.make u b).tell = u.pos - b ∧
      (Bang.OffsetInputFile.make u b).size = (u.data.length : Int) - b ∧
      ((Bang.OffsetInputFile.make u b).seek p .set).tell = p := by
  intro u b p
  refine ⟨?_, ?_, ?_, rfl, rfl, ?_⟩
  · show p + b = b + p
    omega
  · intro w q
    cases w <;> rfl
  · have hdata : ∀ (x : Bang.UFile), (x.read1).2.data = x.data := by
      intro x
      unfold Bang.UFile.read1
      split <;> rfl
    show ((Bang.OffsetInputFile.make u b).read1).2.infile.data = u.data
    rcases hru : (Bang.OffsetInputFile.make u b).infile.read1 with ⟨c, u2⟩
    have h2 : u2.data = u.data := by
      have hx := hdata (Bang.OffsetInputFile.make u b).infile
      rw [hru] at hx
      exact hx
    simp [Bang.OffsetInputFile.read1, hru, h2]
  · show p + b - b = p
    omega

/-- C5 counterexample: a file with no suffix whose first line is the
python shebang is rejected by `unpack_script`, because the code also
requires the `.py` suffix. -/
theorem unpack_script_needs_py_suffix :
    Script.unpack_script "" "#!/usr/bin/env python" 21 =
      ⟨false, [], 0⟩ := by decide

/-- C5 (amended): for every file whose suffix lower-cases to `.py` and
whose first line begins with `#!/usr/bin/env python`, `unpack_script`
succeeds with labels `script` and `python` and length the file size. -/
theorem unpack_script_py_shebang (suffix rest : String) (n : Nat)
    (hsuf : Pystr.pyLower suffix = ".py") :
    Script.unpack_script suffix ⟨"#!/usr/bin/env python".data ++ rest.data⟩ n =
      ⟨true, ["script", "python"], n⟩ := by
  have hsb : Pystr.strContains ⟨"#!/usr/bin/env python".data ++ rest.data⟩ "#!" = true :=
    containsSub_append_left _ _ _ (by decide)
  have hpy : Pystr.strContains
      (Pystr.pyStripStr ⟨"#!/usr/bin/env python".data ++ rest.data⟩) "python" = true := by
    show Pystr.containsSub "python".data
      (Pystr.pyStrip ("#!/usr/bin/env python".data ++ rest.data)) = true
    rw [pyStrip_shebang]
    exact containsSub_append_left _ _ _ (by decide)
  unfold Script.unpack_script
  rw [if_pos hsb, if_pos hsuf, if_pos hpy]

/-- C5 witness: the amended theorem at the concrete file `x.py` with first
line the shebang followed by a newline. -/
theorem unpack_script_py_shebang_witness :
    Script.unpack_script ".py" ⟨"#!/usr/bin/env python".data ++ "\n".data⟩ 22 =
      ⟨true, ["script", "python"], 22⟩ :=
  unpack_script_py_shebang ".py" "\n" 22 (by decide)

/-- C6 (confirmed): the symbol filter of the binary rule emitter, with
`identifier_cutoff = 2` and empty denylists, keeps exactly `foo` from the
single symbol `foo@@GLIBC_2.2.5` (func, section 7, global); a symbol with
`section_index = 0` contributes nothing, a one-character name is dropped,
and version stripping splits on `@@` before `@`. -/
theorem elf_symbol_filter :
    ∀ (iw : Bool) (n t b : String),
      Yara.processSymbols ⟨iw, 2, [], []⟩
        [⟨"foo@@GLIBC_2.2.5", "func", "global", 7⟩] = (["foo"], []) ∧
      Yara.processSymbols ⟨iw, 2, [], []⟩ [⟨n, t, b, 0⟩] = ([], []) ∧
      Yara.processSymbols ⟨iw, 2, [], []⟩ [⟨"x", "func", "global", 7⟩] = ([], []) ∧
      Yara.strip_version "a@b" = "a" ∧
      Yara.strip_version "a@b@@c" = "a@b" := by
  intro iw n t b
  refine ⟨?_, ?_, ?_, by decide, by decide⟩
  · cases iw <;> decide
  · simp [Yara.processSymbols, Yara.processSymbol]
  · cases iw <;> decide

/-- C8 counterexample: the binary emitter names its rule file
`<package>-<name>.yara` (line 59), not `<name>-<sha256>.yara`; the source
emitter uses `<archive>-<language>.yara` (line 62). -/
theorem rule_file_name_not_name_sha256 :
    (Yara.bang_generate_yara "out" ⟨"busybox", "abc123", "pkg"⟩ 1 0 0
      exampleHeuristics).file_name = "pkg-busybox.yara" ∧
    (Yara.bang_generate_yara "out" ⟨"busybox", "abc123", "pkg"⟩ 1 0 0
      exampleHeuristics).file_name ≠ Claimed.claimRuleFileName "busybox" "abc123" ∧
    (Yara.source_generate_yara "out" ⟨"zlib-1.2.11", "c"⟩ 1 0 0
      exampleHeuristics).file_name = "zlib-1.2.11-c.yara" := by
  refine ⟨rfl, ?_, rfl⟩
  decide

/-- C8 (amended): every rule file is written directly under the output
directory; the binary emitter names it `<package>-<name>.yara` and the
source emitter `<archive>-<language>.yara`, and `generate_yara` returns
that base name. -/
theorem rule_file_name_shape :
    ∀ (dir : String) (bmd : Yara.BangRuleMetadata) (smd : Yara.SourceRuleMetadata)
      (ns nf nv : Nat) (h : Yara.Heuristics),
      (Yara.bang_generate_yara dir bmd ns nf nv h).file_name =
        bmd.package ++ "-" ++ bmd.name ++ ".yara" ∧
      (Yara.bang_generate_yara dir bmd ns nf nv h).path =
        dir ++ "/" ++ (Yara.bang_generate_yara dir bmd ns nf nv h).file_name ∧
      (Yara.source_generate_yara dir smd ns nf nv h).file_name =
        smd.archive ++ "-" ++ smd.language ++ ".yara" ∧
      (Yara.source_generate_yara dir smd ns nf nv h).path =
        dir ++ "/" ++ (Yara.source_generate_yara dir smd ns nf nv h).file_name :=
  fun _ _ _ _ _ _ _ => ⟨rfl, rfl, rfl, rfl⟩

/-- C9 (confirmed): both `ExtractedParser.unpack` and
`SynthesizingParser.unpack` yield exactly their MetaDirectory once, the
`write_ahead` call precedes the first yield, `SynthesizingParser`'s labels
are exactly `['synthesized']`, and `ExtractedParser` has no labels and no
metadata. -/
theorem extracted_synthesizing_unpack :
    ∀ (M : Type) (md : M),
      Bang.yieldedMDs (Bang.ExtractedParser.unpack md) = [md] ∧
      Bang.UnpackEvent.writeAhead md ∈
        Bang.eventsBeforeFirstYield (Bang.ExtractedParser.unpack md) ∧
      Bang.yieldedMDs (Bang.SynthesizingParser.unpack md) = [md] ∧
      Bang.UnpackEvent.writeAhead md ∈
        Bang.eventsBeforeFirstYield (Bang.SynthesizingParser.unpack md) ∧
      Bang.SynthesizingParser.labels = [Bang.PyVal.vstr "synthesized"] ∧
      Bang.ExtractedParser.labels = [] ∧
      Bang.ExtractedParser.metadata = [] := by
  intro M md
  refine ⟨rfl, ?_, rfl, ?_, rfl, rfl, rfl⟩ <;>
    simp [Bang.eventsBeforeFirstYield, Bang.ExtractedParser.unpack,
      Bang.SynthesizingParser.unpack, Bang.UnpackEvent.isYield, List.takeWhile]


/-- C2 (confirmed): `parse_from_offset` seeks the offset stream to 0,
calls `parse` on the result, then computes `unpacked_size`; it raises an
`UnpackParserException` exactly when `parse` raised one or the computed
size is not positive, returns normally with a positive size otherwise,
and propagates any other exception of `parse` unchanged. -/
theorem parse_from_offset_spec (p : Bang.AbstractParser) (f : Bang.OffsetInputFile) :
    ((∃ m, Bang.parse_from_offset p f = .error (.upe m)) ↔
      ((∃ m, p.parse (f.seek 0 .set) = .error (.upe m)) ∨
       (∃ f1, p.parse (f.seek 0 .set) = .ok f1 ∧ p.calculate_unpacked_size f1 ≤ 0))) ∧
    (∀ f1 sz, Bang.parse_from_offset p f = .ok (f1, sz) →
      p.parse (f.seek 0 .set) = .ok f1 ∧ sz = p.calculate_unpacked_size f1 ∧ 0 < sz) ∧
    (∀ m, p.parse (f.seek 0 .set) = .error (.other m) →
      Bang.parse_from_offset p f = .error (.other m)) := by
  cases hp : p.parse (f.seek 0 .set) with
  | error e =>
      have hr : Bang.parse_from_offset p f = .error e := by
        unfold Bang.parse_from_offset
        rw [hp]
      refine ⟨⟨?_, ?_⟩, ?_, ?_⟩
      · rintro ⟨m, hm⟩
        rw [hr] at hm
        injection hm with he
        subst he
        exact Or.inl ⟨m, rfl⟩
      · rintro (⟨m, hm⟩ | ⟨f1, hf1, _⟩)
        · injection hm with he
          exact ⟨m, by rw [hr, he]⟩
        · cases hf1
      · intro f1 sz hok
        rw [hr] at hok
        cases hok
      · intro m hm
        injection hm with he
        rw [hr, he]
  | ok f1 =>
      by_cases hsz : 0 < p.calculate_unpacked_size f1
      · have hr : Bang.parse_from_offset p f =
            .ok (f1, p.calculate_unpacked_size f1) := by
          unfold Bang.parse_from_offset
          rw [hp]
          simp [Bang.check_condition, hsz]
        refine ⟨⟨?_, ?_⟩, ?_, ?_⟩
        · rintro ⟨m, hm⟩
          rw [hr] at hm
          cases hm
        · rintro (⟨m, hm⟩ | ⟨f2, hf2, hle⟩)
          · cases hm
          · injection hf2 with he
            subst he
            omega
        · intro f2 sz hok
          rw [hr] at hok
          injection hok with hpair
          rw [Prod.mk.injEq] at hpair
          obtain ⟨h1, h2⟩ := hpair
          subst h1
          subst h2
          exact ⟨rfl, rfl, hsz⟩
        · intro m hm
          cases hm
      · have hr : Bang.parse_from_offset p f =
            .error (.upe "Parser resulted in zero length file") := by
          unfold Bang.parse_from_offset
          rw [hp]
          simp [Bang.check_condition, hsz]
        refine ⟨⟨?_, ?_⟩, ?_, ?_⟩
        · intro _
          exact Or.inr ⟨f1, rfl, by omega⟩
        · intro _
          exact ⟨"Parser resulted in zero length file", hr⟩
        · intro f2 sz hok
          rw [hr] at hok
          cases hok
        · intro m hm
          cases hm

/-- C2 witness: the specification applied to a parser that succeeds with
size 5 on a concrete stream. -/
theorem parse_from_offset_spec_witness :
    ∃ sz, Bang.parse_from_offset okParser exampleFile =
        .ok (exampleFile.seek 0 .set, sz) ∧ 0 < sz := by
  have h := parse_from_offset_spec okParser exampleFile
  have hok : Bang.parse_from_offset okParser exampleFile =
      .ok (exampleFile.seek 0 .set, 5) := rfl
  obtain ⟨_, _, hpos⟩ := h.2.1 (exampleFile.seek 0 .set) 5 hok
  exact ⟨5, hok, hpos⟩

/-- C4 (confirmed): for an ELF whose `.dynamic` section carries a `flags`
entry with `bind_now` or a `flags_1` entry with `now`, the security list
contains `full relro` when a `PT_GNU_RELRO` program header is present,
and otherwise contains `partial relro` and not `full relro`. -/
theorem elf_relro_classification (e : Elf.ElfData)
    (hdyn : ∃ s ∈ e.section_headers, s.shtype = .dynamic ∧ s.name = ".dynamic" ∧
      ∃ en ∈ s.entries, (en.tag_enum = .flags ∧ en.flag_values.bind_now = true) ∨
                        (en.tag_enum = .flags_1 ∧ en.flag_1_values.now = true)) :
    ((∃ h ∈ e.program_headers, h.phtype = .gnu_relro) →
      "full relro" ∈ Elf.elfSecurity e) ∧
    ((∀ h ∈ e.program_headers, h.phtype ≠ .gnu_relro) →
      "partial relro" ∈ Elf.elfSecurity e ∧ "full relro" ∉ Elf.elfSecurity e) := by
  obtain ⟨s, hs, hstype, hsname, en, hen, hflag⟩ := hdyn
  constructor
  · rintro ⟨h, hh, htype⟩
    have hseen : (Elf.phLoop e.program_headers).2 = true := by
      unfold Elf.phLoop
      rw [phLoop_seen]
      simp only [Bool.false_or, List.any_eq_true, beq_iff_eq]
      exact ⟨h, hh, htype⟩
    have hmem : "full relro" ∈ Elf.shLoop true e.section_headers := by
      rw [shLoop_mem]
      refine ⟨s, hs, ?_⟩
      rw [dynSectionSecurity_mem]
      refine ⟨hstype, hsname, en, hen, ?_⟩
      simpa using dynEntrySecurity_relro true en hflag
    show "full relro" ∈ (Elf.phLoop e.program_headers).1 ++
      Elf.shLoop (Elf.phLoop e.program_headers).2 e.section_headers
    rw [hseen]
    exact List.mem_append_right _ hmem
  · intro hno
    have hseen : (Elf.phLoop e.program_headers).2 = false := by
      unfold Elf.phLoop
      rw [phLoop_seen]
      simp only [Bool.false_or, List.any_eq_false, beq_iff_eq]
      exact hno
    constructor
    · have hmem : "partial relro" ∈ Elf.shLoop false e.section_headers := by
        rw [shLoop_mem]
        refine ⟨s, hs, ?_⟩
        rw [dynSectionSecurity_mem]
        refine ⟨hstype, hsname, en, hen, ?_⟩
        simpa using dynEntrySecurity_relro false en hflag
      show "partial relro" ∈ (Elf.phLoop e.program_headers).1 ++
        Elf.shLoop (Elf.phLoop e.program_headers).2 e.section_headers
      rw [hseen]
      exact List.mem_append_right _ hmem
    · show "full relro" ∉ (Elf.phLoop e.program_headers).1 ++
        Elf.shLoop (Elf.phLoop e.program_headers).2 e.section_headers
      rw [hseen]
      intro hmem
      rcases List.mem_append.mp hmem with hl | hr
      · rcases phLoop_mem e.program_headers [] false _ hl with h | h | h | h
        · cases h
        · exact absurd h (by decide)
        · exact absurd h (by decide)
        · exact absurd h (by decide)
      · rw [shLoop_mem] at hr
        obtain ⟨s2, _, hx⟩ := hr
        rw [dynSectionSecurity_mem] at hx
        obtain ⟨_, _, e2, _, hx2⟩ := hx
        exact dynEntrySecurity_no_full e2 hx2

/-- C4 witness: the classification applied to a concrete ELF with a
`PT_GNU_RELRO` header and a `.dynamic` `flags` entry with `bind_now`. -/
theorem elf_relro_classification_witness :
    "full relro" ∈ Elf.elfSecurity exampleRelroElf :=
  (elf_relro_classification exampleRelroElf (by decide)).1 (by decide)

/-- C7 counterexample: with `minimum_present = 50`, `percentage = 20`,
`matched = 1` and a group of exactly 50 identifiers (count equal to, not
exceeding, the minimum), the claim predicts `any of`, but the binary
emitter requires `max(50 // 20, 1) = 2` matches, the source emitter
requires `int(max(50 / 100 * 20, 1)) = 10` matches, and the two emitters
therefore disagree. -/
theorem cond_threshold_divergence :
    Yara.bangCondGroup 50 50 20 1 "function" = .ofCount 2 "function" ∧
    Yara.sourceCondGroup 50 50 20 1 "function" = .ofCount 10 "function" ∧
    Claimed.claimCondGroup 50 50 20 1 "function" = .anyOf "function" ∧
    Yara.bangCondGroup 50 50 20 1 "function" ≠
      Yara.sourceCondGroup 50 50 20 1 "function" ∧
    (Yara.bang_generate_yara "out" ⟨"n", "h", "p"⟩ 0 50 0 exampleHeuristics).cond =
      [.ofCount 2 "function"] ∧
    (Yara.source_generate_yara "out" ⟨"a", "c"⟩ 0 50 0 exampleHeuristics).cond =
      [.ofCount 10 "function", .andConn] := by
  have hsrc : Yara.sourceCondGroup 50 50 20 1 "function" = .ofCount 10 "function" := by
    unfold Yara.sourceCondGroup
    norm_num
    decide
  refine ⟨by decide, hsrc, by decide, ?_, by decide, ?_⟩
  · rw [hsrc]
    decide
  · simp only [Yara.source_generate_yara, Yara.sourceConditionBlock, exampleHeuristics]
    norm_num
    rw [hsrc]

/-- C7 (amended): each non-empty identifier group contributes its
condition to the emitted block; when the count is at least (not strictly
above) `minimum_present` the binary emitter requires
`max(count // percentage, matched)` matches while the source emitter
requires `int(max(count / 100 * percentage, matched))` matches, and
otherwise both require `any of` the group; consecutive group conditions
are joined by the fixed connective `and`; the two emitters may compute
different thresholds for the same inputs. -/
theorem cond_threshold_formulas (dir : String) (bmd : Yara.BangRuleMetadata)
    (smd : Yara.SourceRuleMetadata) (ns nf nv : Nat) (h : Yara.Heuristics) :
    (ns ≠ 0 →
      Yara.bangCondGroup ns h.strings_minimum_present h.strings_percentage
        h.strings_matched "string" ∈ (Yara.bang_generate_yara dir bmd ns nf nv h).cond ∧
      Yara.sourceCondGroup ns h.strings_minimum_present h.strings_percentage
        h.strings_matched "string" ∈ (Yara.source_generate_yara dir smd ns nf nv h).cond) ∧
    (nf ≠ 0 →
      Yara.bangCondGroup nf h.functions_minimum_present h.functions_percentage
        h.functions_matched "function" ∈ (Yara.bang_generate_yara dir bmd ns nf nv h).cond ∧
      Yara.sourceCondGroup nf h.functions_minimum_present h.functions_percentage
        h.functions_matched "function" ∈ (Yara.source_generate_yara dir smd ns nf nv h).cond) ∧
    (nv ≠ 0 →
      Yara.bangCondGroup nv h.variables_minimum_present h.variables_percentage
        h.variables_matched "variable" ∈ (Yara.bang_generate_yara dir bmd ns nf nv h).cond ∧
      Yara.sourceCondGroup nv h.variables_minimum_present h.variables_percentage
        h.variables_matched "variable" ∈ (Yara.source_generate_yara dir smd ns nf nv h).cond) ∧
    (∀ c minp pct m g, minp ≤ c →
      Yara.bangCondGroup c minp pct m g = .ofCount (max (c / pct) m) g ∧
      Yara.sourceCondGroup c minp pct m g =
        .ofCount (Int.toNat ⌊max ((c : ℚ) / 100 * (pct : ℚ)) ((m : ℚ))⌋) g) ∧
    (∀ c minp pct m g, c < minp →
      Yara.bangCondGroup c minp pct m g = .anyOf g ∧
      Yara.sourceCondGroup c minp pct m g = .anyOf g) := by
  refine ⟨?_, ?_, ?_, ?_, ?_⟩
  · intro hns
    constructor <;>
      simp [Yara.bang_generate_yara, Yara.bangConditionBlock,
        Yara.source_generate_yara, Yara.sourceConditionBlock, hns]
  · intro hnf
    constructor <;>
      simp [Yara.bang_generate_yara, Yara.bangConditionBlock,
        Yara.source_generate_yara, Yara.sourceConditionBlock, hnf]
  · intro hnv
    constructor <;>
      simp [Yara.bang_generate_yara, Yara.bangConditionBlock,
        Yara.source_generate_yara, Yara.sourceConditionBlock, hnv]
  · intro c minp pct m g hle
    constructor <;> simp [Yara.bangCondGroup, Yara.sourceCondGroup, hle]
  · intro c minp pct m g hlt
    have hn : ¬ minp ≤ c := by omega
    constructor <;> simp [Yara.bangCondGroup, Yara.sourceCondGroup, hn]

/-- C7 witness: the amended statement instantiated for one-element groups
and for concrete counts on either side of the minimum. -/
theorem cond_threshold_formulas_witness :
    Yara.bangCondGroup 1 50 20 1 "string" ∈
      (Yara.bang_generate_yara "o" ⟨"n", "h", "p"⟩ 1 1 1 exampleHeuristics).cond ∧
    Yara.bangCondGroup 60 50 20 3 "g" = .ofCount 3 "g" ∧
    Yara.sourceCondGroup 49 50 20 1 "g" = .anyOf "g" := by
  have h := cond_threshold_formulas "o" ⟨"n", "h", "p"⟩ ⟨"a", "c"⟩ 1 1 1
    exampleHeuristics
  refine ⟨(h.1 (by decide)).1, ?_, (h.2.2.2.2 49 50 20 1 "g" (by norm_num)).2⟩
  have h2 := (h.2.2.2.1 60 50 20 3 "g" (by norm_num)).1
  rw [h2]
  decide

/-- C10 (confirmed): `write_info` only adds to the info record: existing
labels stay (the parser's labels are appended after them), metadata keys
not produced by the parser keep their values while parser keys get the
parser's values, exactly the `unpack_parser` key is overwritten with the
parser's pretty name, and every other key of the info record is
unchanged. -/
theorem write_info_frame (pretty_name : String) (parser_labels : List Bang.PyVal)
    (parser_metadata : List (String × Bang.PyVal)) (info : List (String × Bang.PyVal))
    (old_labels : List Bang.PyVal) (old_meta : List (String × Bang.PyVal))
    (hl : Bang.dictGet? info "labels" = some (.vlist old_labels) ∨
          (Bang.dictGet? info "labels" = none ∧ old_labels = []))
    (hm : Bang.dictGet? info "metadata" = some (.vdict old_meta) ∨
          (Bang.dictGet? info "metadata" = none ∧ old_meta = []))
    (hnd : (parser_metadata.map Prod.fst).Nodup) :
    ∃ info2, Bang.write_info pretty_name parser_labels parser_metadata info = some info2 ∧
      Bang.dictGet? info2 "unpack_parser" = some (.vstr pretty_name) ∧
      Bang.dictGet? info2 "labels" = some (.vlist (old_labels ++ parser_labels)) ∧
      Bang.dictGet? info2 "metadata" =
        some (.vdict (Bang.dictUpdate old_meta parser_metadata)) ∧
      (∀ k, (∀ kv ∈ parser_metadata, kv.1 ≠ k) →
        Bang.dictGet? (Bang.dictUpdate old_meta parser_metadata) k =
          Bang.dictGet? old_meta k) ∧
      (∀ k v, (k, v) ∈ parser_metadata →
        Bang.dictGet? (Bang.dictUpdate old_meta parser_metadata) k = some v) ∧
      (∀ k, k ≠ "unpack_parser" → k ≠ "labels" → k ≠ "metadata" →
        Bang.dictGet? info2 k = Bang.dictGet? info k) := by
  have hl1 : Bang.dictGet? (Bang.record_parser_name pretty_name info) "labels" =
      Bang.dictGet? info "labels" :=
    dictGet?_dictSet_other info "unpack_parser" "labels" _ (by decide)
  obtain ⟨i2, hadd, hl2, hframe2⟩ :=
    add_labels_spec parser_labels (Bang.record_parser_name pretty_name info) old_labels (by
      rcases hl with hl | ⟨hl, rfl⟩
      · exact Or.inl (hl1.trans hl)
      · exact Or.inr ⟨hl1.trans hl, rfl⟩)
  have hm2 : Bang.dictGet? i2 "metadata" = Bang.dictGet? info "metadata" := by
    rw [hframe2 "metadata" (by decide)]
    exact dictGet?_dictSet_other info "unpack_parser" "metadata" _ (by decide)
  obtain ⟨i3, hupd, hm3, hframe3⟩ :=
    update_metadata_spec parser_metadata i2 old_meta (by
      rcases hm with hm | ⟨hm, rfl⟩
      · exact Or.inl (hm2.trans hm)
      · exact Or.inr ⟨hm2.trans hm, rfl⟩)
  refine ⟨i3, ?_, ?_, ?_, hm3, ?_, ?_, ?_⟩
  · unfold Bang.write_info
    rw [hadd]
    exact hupd
  · rw [hframe3 _ (by decide), hframe2 _ (by decide)]
    exact dictGet?_dictSet_same info "unpack_parser" _
  · rw [hframe3 _ (by decide)]
    exact hl2
  · exact fun k hk => dictUpdate_not_mem parser_metadata old_meta k hk
  · exact fun k v hkv => dictUpdate_mem parser_metadata old_meta k v hnd hkv
  · intro k h1 h2 h3
    rw [hframe3 k h3, hframe2 k h2]
    exact dictGet?_dictSet_other info "unpack_parser" k _ h1

/-- C10 witness: `write_info` applied to a concrete info record holding
one unrelated key. -/
theorem write_info_frame_witness :
    ∃ info2, Bang.write_info "fmt" [Bang.PyVal.vstr "new"] [("k", Bang.PyVal.vint 1)]
        [("x", Bang.PyVal.vint 7)] = some info2 ∧
      Bang.dictGet? info2 "unpack_parser" = some (Bang.PyVal.vstr "fmt") ∧
      Bang.dictGet? info2 "x" = some (Bang.PyVal.vint 7) := by
  obtain ⟨i2, hw, hup, _, _, _, _, hframe⟩ := write_info_frame "fmt"
    [Bang.PyVal.vstr "new"] [("k", Bang.PyVal.vint 1)] [("x", Bang.PyVal.vint 7)]
    [] [] (Or.inr ⟨rfl, rfl⟩) (Or.inr ⟨rfl, rfl⟩) (by simp)
  refine ⟨i2, hw, hup, ?_⟩
  rw [hframe "x" (by decide) (by decide) (by decide)]
  rfl
